import Mathlib

/-!
Verification development for the spider-crawl repository.

The development shallowly embeds the two core modules of the repository:

* `SpiderCrawl` (src/modules/spider_crawl.ts): URL normalization
  (`normalizeUrl`), the frontier-admission test (`shouldProcessUrl`), the
  batched breadth-first traversal (`processQueue` / `processUrl`, embedded as
  `gatePhase` / `fetchPhase` / `runBatch` / `runBatches`), the top-level
  `crawl`, and the read-only views `getInternalLinks` / `getExternalLinks`.
* `PuppeteerController` (src/controllers/puppeteer_controller.ts): the
  session/tab pool (`getTab`, `releaseTab`, `closeTab`, `cleanupOldTabs`,
  `close`).

External collaborators (the WHATWG URL platform API, the headless browser's
page list, the page renderer) are modelled: the URL API by an executable
parser/serializer precise enough for the normalization claims, the browser's
page list by a boolean lookup oracle, and the renderer by a fetch oracle
`String → Option (List LinkData)`.

Strings are processed as `List Char`; `String`-level wrappers mirror the
TypeScript signatures.
-/

namespace SpiderCrawlModel

/-! ## Model of the WHATWG URL platform API

The TypeScript code calls `new URL(s)`, reads/writes `hash`, `pathname`,
`hostname`, and serializes with `toString()`.  The model parses
`scheme://host/path?query#fragment` shapes: the fragment is split at the
first `#`, the query at the first `?`, the scheme is a non-empty run of
ASCII letters terminated by `://`, the host is the non-empty run up to the
first `/` of the remainder, and an empty path serializes as `/` (as the URL
API does for special schemes).  Inputs of any other shape fail to parse,
as `new URL` throws on them. -/

structure UrlObj where
  scheme : List Char
  host : List Char
  path : List Char
  search : Option (List Char)
  frag : Option (List Char)
deriving Repr, DecidableEq

/-- Split a character list at the first occurrence of `sep`: returns the
part before it and, when `sep` occurs, the part after it. -/
def splitAtChar (sep : Char) : List Char → List Char × Option (List Char)
  | [] => ([], none)
  | c :: rest =>
    if c = sep then ([], some rest)
    else
      let p := splitAtChar sep rest
      (c :: p.1, p.2)

/-- Expect the list to start with the two characters `//`; return the rest. -/
def expectSlashes : List Char → Option (List Char)
  | d1 :: d2 :: r => if d1 = '/' ∧ d2 = '/' then some r else none
  | _ => none

/-- Split off a URL scheme: a run of ASCII letters followed by the literal
characters `://`; returns the scheme letters and the remainder. -/
def splitScheme : List Char → Option (List Char × List Char)
  | [] => none
  | c :: rest =>
    if c.isAlpha then
      match splitScheme rest with
      | some p => some (c :: p.1, p.2)
      | none => none
    else if c = ':' then
      match expectSlashes rest with
      | some r => some ([], r)
      | none => none
    else none

/-- Parse a character list as a URL object; `none` models `new URL` throwing. -/
def parseChars (l : List Char) : Option UrlObj :=
  let ph := splitAtChar '#' l
  let pq := splitAtChar '?' ph.1
  match splitScheme pq.1 with
  | none => none
  | some sp =>
    if sp.1 = [] then none
    else
      let host := sp.2.takeWhile (fun c => c ≠ '/')
      let path := sp.2.dropWhile (fun c => c ≠ '/')
      if host = [] then none
      else some ⟨sp.1, host, if path = [] then ['/'] else path, pq.2, ph.2⟩

/-- Serialize a URL object back to characters, as `URL.prototype.toString`. -/
def serializeUrl (u : UrlObj) : List Char :=
  u.scheme ++ ':' :: '/' :: '/' ::
    (u.host ++ u.path ++
      (match u.search with | none => [] | some q => '?' :: q) ++
      (match u.frag with | none => [] | some f => '#' :: f))

/-- Collapse every run of repeated `/` characters to a single `/`, as the
replacement `pathname.replace(&#47;\/+&#47;g, &#39;/&#39;)` does. -/
def collapseSlashes : List Char → List Char
  | [] => []
  | [c] => [c]
  | a :: b :: rest =>
    if a = '/' ∧ b = '/' then collapseSlashes (b :: rest)
    else a :: collapseSlashes (b :: rest)

/-- No two adjacent characters of the list are both `/`: the shape
`collapseSlashes` produces. -/
def noAdjSlash : List Char → Bool
  | [] => true
  | [_] => true
  | a :: b :: rest => !(a = '/' && b = '/') && noAdjSlash (b :: rest)

/-- SpiderCrawl.normalizeUrl on character lists: parse, drop the fragment,
collapse repeated path separators, serialize; on parse failure return the
input unchanged. -/
def normalizeChars (l : List Char) : List Char :=
  match parseChars l with
  | none => l
  | some u => serializeUrl { u with frag := none, path := collapseSlashes u.path }

/-- Shape invariant every URL object produced by `parseChars` satisfies: a
non-empty all-letter scheme, a non-empty host free of `/`, `?`, `#`, a path
that starts with `/` and is free of `?`, `#`, and a query free of `#`. -/
def UrlInv (u : UrlObj) : Prop :=
  u.scheme ≠ [] ∧ (∀ c ∈ u.scheme, c.isAlpha = true) ∧
  u.host ≠ [] ∧ (∀ c ∈ u.host, c ≠ '/' ∧ c ≠ '?' ∧ c ≠ '#') ∧
  (∃ t, u.path = '/' :: t) ∧ (∀ c ∈ u.path, c ≠ '?' ∧ c ≠ '#') ∧
  (∀ q, u.search = some q → ∀ c ∈ q, c ≠ '#')

/-- Parse a string as a URL (model of `new URL`). -/
def parseUrl (s : String) : Option UrlObj :=
  parseChars s.data

/-- SpiderCrawl.normalizeUrl (src/modules/spider_crawl.ts lines 174-188). -/
def normalizeUrl (s : String) : String :=
  ⟨normalizeChars s.data⟩

example : normalizeUrl "http://a.com/x//y#frag" = "http://a.com/x/y" := by decide
example : normalizeUrl "not a url" = "not a url" := by decide
example : normalizeUrl "http://a.com" = "http://a.com/" := by decide
example : normalizeUrl "http://a.com/p?q=1#z" = "http://a.com/p?q=1" := by decide

/-! ## SpiderCrawl data model (src/modules/spider_crawl.ts, src/types) -/

/-- One discovered link, as produced by WebCrawl.extractLinks: target URL,
anchor text, title, and whether its hostname matches the page's hostname. -/
structure LinkData where
  url : String
  text : String
  title : String
  isInternal : Bool
deriving Repr, DecidableEq

/-- SpiderCrawlOptions after the merge with the defaults at
src/modules/spider_crawl.ts lines 26-47 (every field present; the structure
defaults are the TypeScript defaults).  The inter-batch delay only spends
wall-clock time, so it is not modelled. -/
structure SpiderCrawlOptions where
  maxDepth : Nat := 3
  maxPages : Nat := 100
  sameDomain : Bool := true
  excludePatterns : List String :=
    ["mailto:", "tel:", "javascript:", "#", ".pdf", ".doc", ".docx",
     ".xls", ".xlsx", ".zip", ".rar"]
  includePatterns : List String := []
deriving Repr

/-- Check that `n` occurs as a prefix of `h`. -/
def startsWithList (h n : List Char) : Bool :=
  match n with
  | [] => true
  | c :: ns =>
    match h with
    | [] => false
    | c2 :: hs => c2 = c && startsWithList hs ns

/-- JavaScript `haystack.includes(needle)`: substring containment. -/
def listIncludes (h n : List Char) : Bool :=
  match h with
  | [] => startsWithList [] n
  | _ :: hs => startsWithList h n || listIncludes hs n

/-- String-level wrapper of `listIncludes`, mirroring `url.includes(pattern)`. -/
def strIncludes (h n : String) : Bool :=
  listIncludes h.data n.data

/-- Effective maximum depth: `options.maxDepth || 3` at
src/modules/spider_crawl.ts line 78 (a falsy stored value falls back to 3). -/
def effMaxDepth (o : SpiderCrawlOptions) : Nat :=
  if o.maxDepth = 0 then 3 else o.maxDepth

/-- Effective page budget: `options.maxPages || 100` at
src/modules/spider_crawl.ts line 102. -/
def effMaxPages (o : SpiderCrawlOptions) : Nat :=
  if o.maxPages = 0 then 100 else o.maxPages

/-- SpiderCrawl.shouldProcessUrl (src/modules/spider_crawl.ts lines 134-169):
reject a candidate already visited; then parse it (parse failure rejects);
then apply the domain restriction, the exclude patterns, and the include
patterns, in that order. -/
def shouldProcessUrl (visited : List String) (baseObj : UrlObj)
    (o : SpiderCrawlOptions) (url : String) : Bool :=
  if url ∈ visited then false
  else
    match parseUrl url with
    | none => false
    | some urlObj =>
      if o.sameDomain && urlObj.host ≠ baseObj.host then false
      else if o.excludePatterns.any (fun p => strIncludes url p) then false
      else if !o.includePatterns.isEmpty
              && !o.includePatterns.any (fun p => strIncludes url p) then false
      else true

/-- Run state of one crawl invocation: the Visited Set, the Link Map (an
insertion-ordered association list, as a JS Map), and the frontier queue. -/
structure CrawlState where
  visited : List String
  linkMap : List (String × List LinkData)
  queue : List String
deriving Repr

/-- The synchronous prefix of processUrl for every URL of a batch
(src/modules/spider_crawl.ts lines 100-107): skip a URL already visited or
when the page budget is reached, otherwise insert it into the Visited Set
before its fetch is dispatched.  Returns the grown Visited Set and the list
of URLs admitted for fetching, in batch order.  Under the JavaScript event
loop these prefixes all run before any fetch settles, which is why the
phase is separate from `fetchPhase`. -/
def gatePhase (maxPages : Nat) : List String → List String → List String × List String
  | [], visited => (visited, [])
  | u :: rest, visited =>
    if u ∈ visited ∨ maxPages ≤ visited.length then gatePhase maxPages rest visited
    else
      let p := gatePhase maxPages rest (visited ++ [u])
      (p.1, u :: p.2)

/-- Links of one successfully fetched page admitted to the next frontier
(src/modules/spider_crawl.ts lines 117-124): each link URL is normalized and
kept when `shouldProcessUrl` accepts it. -/
def admitLinks (visited : List String) (baseObj : UrlObj)
    (o : SpiderCrawlOptions) (links : List LinkData) : List String :=
  (links.map (fun l => normalizeUrl l.url)).filter
    (fun u => shouldProcessUrl visited baseObj o u)

/-- The asynchronous remainder of processUrl for the admitted URLs of a batch
(src/modules/spider_crawl.ts lines 109-128): fetch each page through the
renderer oracle; a failed fetch is swallowed (no Link Map entry, the queue is
untouched, the remaining URLs are still processed); a successful fetch
records the URL → links entry and pushes the admitted links onto the queue.
The Visited Set is not modified in this phase, so it is a fixed argument. -/
def fetchPhase (fetch : String → Option (List LinkData)) (baseObj : UrlObj)
    (o : SpiderCrawlOptions) (visited : List String) :
    List String → List (String × List LinkData) × List String →
    List (String × List LinkData) × List String
  | [], acc => acc
  | u :: rest, acc =>
    match fetch u with
    | none => fetchPhase fetch baseObj o visited rest acc
    | some links =>
      fetchPhase fetch baseObj o visited rest
        (acc.1 ++ [(u, links)], acc.2 ++ admitLinks visited baseObj o links)

/-- One batch of the traversal: run the gate phase over the batch, then the
fetch phase over the admitted URLs. -/
def runBatch (fetch : String → Option (List LinkData)) (baseObj : UrlObj)
    (o : SpiderCrawlOptions) (batch : List String) (s : CrawlState) : CrawlState :=
  let g := gatePhase (effMaxPages o) batch s.visited
  let f := fetchPhase fetch baseObj o g.1 g.2 (s.linkMap, s.queue)
  ⟨g.1, f.1, f.2⟩

/-- SpiderCrawl.processQueue (src/modules/spider_crawl.ts lines 76-95):
while the queue is non-empty and depth < maxDepth, snapshot the queue as the
current batch, clear it, and run the batch.  `d` counts the remaining depth
levels. -/
def runBatches (fetch : String → Option (List LinkData)) (baseObj : UrlObj)
    (o : SpiderCrawlOptions) : Nat → CrawlState → CrawlState
  | 0, s => s
  | d + 1, s =>
    if s.queue.isEmpty then s
    else runBatches fetch baseObj o d (runBatch fetch baseObj o s.queue ⟨s.visited, s.linkMap, []⟩)

/-- Sum of the link-list lengths across the Link Map
(SpiderCrawl.getTotalLinks, src/modules/spider_crawl.ts lines 193-199). -/
def getTotalLinks (lm : List (String × List LinkData)) : Nat :=
  (lm.map (fun e => e.2.length)).sum

/-- SpiderCrawlResult as returned by crawl (src/types). -/
structure SpiderCrawlResult where
  success : Bool
  linkMap : List (String × List LinkData)
  totalPages : Nat
  totalLinks : Nat
  error : Option String
  baseUrl : String
deriving Repr

/-- Final run state of a crawl that passed URL validation: the batch loop
run from the seeded frontier with fresh state. -/
def crawlFinalState (fetch : String → Option (List LinkData)) (baseObj : UrlObj)
    (o : SpiderCrawlOptions) (baseUrl : String) : CrawlState :=
  runBatches fetch baseObj o (effMaxDepth o) ⟨[], [], [baseUrl]⟩

/-- SpiderCrawl.crawl (src/modules/spider_crawl.ts lines 13-71): reset state,
normalize the start URL, parse it (`new URL` throwing lands in the catch
branch: success false, empty Link Map, zero totals, the error message, the
raw input as baseUrl), otherwise run the batch loop and report
totalPages from the Visited Set size and totalLinks from the Link Map. -/
def crawl (fetch : String → Option (List LinkData)) (url : String)
    (o : SpiderCrawlOptions) : SpiderCrawlResult :=
  let baseUrl := normalizeUrl url
  match parseUrl baseUrl with
  | none =>
    { success := false, linkMap := [], totalPages := 0, totalLinks := 0,
      error := some "Invalid URL", baseUrl := url }
  | some baseObj =>
    let final := crawlFinalState fetch baseObj o baseUrl
    { success := true, linkMap := final.linkMap,
      totalPages := final.visited.length,
      totalLinks := getTotalLinks final.linkMap,
      error := none, baseUrl := baseUrl }

/-- Run-state invariant of the traversal: the Visited Set has no duplicates,
no URL occurs twice as a Link Map key, every Link Map key is visited, and
the Visited Set respects the page budget `m`. -/
def CrawlInv (m : Nat) (s : CrawlState) : Prop :=
  s.visited.Nodup ∧ (s.linkMap.map Prod.fst).Nodup ∧
  (∀ k ∈ s.linkMap.map Prod.fst, k ∈ s.visited) ∧ s.visited.length ≤ m

/-- SpiderCrawl.getInternalLinks (src/modules/spider_crawl.ts lines 256-267):
keep, per page, the links with `isInternal` set, and keep the page only when
that filtered list is non-empty. -/
def getInternalLinks (lm : List (String × List LinkData)) :
    List (String × List LinkData) :=
  lm.filterMap (fun e =>
    let il := e.2.filter (fun l => l.isInternal)
    if il.isEmpty then none else some (e.1, il))

/-- SpiderCrawl.getExternalLinks (src/modules/spider_crawl.ts lines 272-283):
keep, per page, the links with `isInternal` unset, and keep the page only
when that filtered list is non-empty. -/
def getExternalLinks (lm : List (String × List LinkData)) :
    List (String × List LinkData) :=
  lm.filterMap (fun e =>
    let el := e.2.filter (fun l => !l.isInternal)
    if el.isEmpty then none else some (e.1, el))

end SpiderCrawlModel

namespace PoolModel

/-! ## PuppeteerController session pool
(src/controllers/puppeteer_controller.ts)

The browser is modelled by whether it is launched (`browser : Bool`); the
tab registry is an insertion-ordered association list mirroring the JS
`Map<string, TabInfo>`.  The identifier a page reports (`page.url()`) and
whether `browser.pages()` still contains a page with a given URL are
environment facts, passed in as the `freshId` argument and the `pageLookup`
oracle. -/

/-- TabInfo (src/types): bookkeeping for one pooled tab/session. -/
structure TabInfo where
  id : String
  url : String
  inUse : Bool
  createdAt : Nat
  lastUsed : Nat
deriving Repr, DecidableEq

/-- Pool state: whether the browser is launched, the tab registry, and the
configured capacity (`config.maxTabs`, default 10). -/
structure PoolState where
  browser : Bool
  tabs : List (String × TabInfo)
  maxTabs : Nat
deriving Repr, DecidableEq

/-- Outcome of a getTab call: an existing page handed back, a fresh page
created, or the caller left polling in waitForAvailableTab. -/
inductive TabResult where
  | reused (id : String)
  | created (id : String)
  | blocked
deriving Repr, DecidableEq

/-- JavaScript `Map.set`: replace the value at an existing key in place,
otherwise append the new entry. -/
def mapSet (k : String) (v : TabInfo) : List (String × TabInfo) → List (String × TabInfo)
  | [] => [(k, v)]
  | e :: rest => if e.1 = k then (k, v) :: rest else e :: mapSet k v rest

/-- The TabInfo recorded by createNewTab (lines 147-156): both the key and
the stored url are the page's reported URL at creation time. -/
def mkTabInfo (id : String) (now : Nat) : TabInfo :=
  { id := id, url := id, inUse := true, createdAt := now, lastUsed := now }

/-- The scan at lines 97-103: walk the registry in insertion order; at the
first tab not in use, mark it in use with a fresh lastUsed stamp, and return
the updated entry together with the updated registry. -/
def scanIdle (now : Nat) : List (String × TabInfo) →
    Option ((String × TabInfo) × List (String × TabInfo))
  | [] => none
  | e :: rest =>
    if e.2.inUse then
      match scanIdle now rest with
      | none => none
      | some p => some (p.1, e :: p.2)
    else
      let upd := (e.1, { e.2 with inUse := true, lastUsed := now })
      some (upd, upd :: rest)

/-- PuppeteerController.getTab (lines 89-112), with initialize() inlined:
launch the browser when it is not running; hand back the first idle tab when
the browser still has a page at its recorded URL (lines 97-102), otherwise
fall through to createNewTab; with no idle tab, create a new tab while under
capacity, else poll in waitForAvailableTab (`blocked`). -/
def getTab (now : Nat) (freshId : String) (pageLookup : String → Bool)
    (s : PoolState) : PoolState × TabResult :=
  let s1 : PoolState := { s with browser := true }
  match scanIdle now s1.tabs with
  | some p =>
    if pageLookup p.1.2.url then ({ s1 with tabs := p.2 }, TabResult.reused p.1.1)
    else ({ s1 with tabs := mapSet freshId (mkTabInfo freshId now) p.2 },
          TabResult.created freshId)
  | none =>
    if s1.tabs.length < s1.maxTabs then
      ({ s1 with tabs := mapSet freshId (mkTabInfo freshId now) s1.tabs },
       TabResult.created freshId)
    else (s1, TabResult.blocked)

/-- Mark the entry at key `k` idle with a fresh lastUsed stamp; no-op when
the key is unknown. -/
def releaseAt (k : String) (now : Nat) : List (String × TabInfo) → List (String × TabInfo)
  | [] => []
  | e :: rest =>
    if e.1 = k then (e.1, { e.2 with inUse := false, lastUsed := now }) :: rest
    else e :: releaseAt k now rest

/-- PuppeteerController.releaseTab (lines 192-200): `pageUrl` is the URL the
released page currently reports, used as the registry key. -/
def releaseTab (pageUrl : String) (now : Nat) (s : PoolState) : PoolState :=
  { s with tabs := releaseAt pageUrl now s.tabs }

/-- PuppeteerController.closeTab (lines 205-214): delete the registry entry
keyed by the page's URL (the page's own close handler deletes the same key
again, a no-op). -/
def closeTab (pageUrl : String) (s : PoolState) : PoolState :=
  { s with tabs := s.tabs.filter (fun e => e.1 ≠ pageUrl) }

/-- PuppeteerController.cleanupOldTabs (lines 230-243): for every registry
entry that is idle and whose lastUsed stamp is strictly older than
`maxAgeMinutes` (converted to milliseconds), close the matching browser page
when one exists (`pageLookup`); entries in use, young entries, and stale
entries whose page is gone are left in place. -/
def cleanupOldTabs (now : Nat) (maxAgeMinutes : Nat) (pageLookup : String → Bool)
    (s : PoolState) : PoolState :=
  let maxAge := maxAgeMinutes * 60 * 1000
  { s with tabs := s.tabs.filter (fun e =>
      !((!e.2.inUse) && decide (maxAge < now - e.2.lastUsed) && pageLookup e.1)) }

/-- PuppeteerController.close (lines 257-268): when the browser is running,
close it and clear the registry; otherwise nothing happens. -/
def close (s : PoolState) : PoolState :=
  if s.browser then { s with browser := false, tabs := [] } else s

end PoolModel

namespace SpiderCrawlModel

/-! ## Lemmas: collapseSlashes -/

theorem collapse_cons : ∀ (rest : List Char) (b : Char),
    ∃ r, collapseSlashes (b :: rest) = b :: r
  | [], _ => ⟨[], rfl⟩
  | c :: rest2, b => by
    obtain ⟨r, hr⟩ := collapse_cons rest2 c
    by_cases hb : b = '/' ∧ c = '/'
    · exact ⟨r, by rw [collapseSlashes, if_pos hb, hr, hb.1, hb.2]⟩
    · exact ⟨collapseSlashes (c :: rest2), by rw [collapseSlashes, if_neg hb]⟩

theorem mem_collapse : ∀ (l : List Char) (c : Char), c ∈ collapseSlashes l → c ∈ l
  | [], _, h => by simp [collapseSlashes] at h
  | [_], _, h => by simpa [collapseSlashes] using h
  | a :: b :: rest, c, h => by
    by_cases hb : a = '/' ∧ b = '/'
    · rw [collapseSlashes, if_pos hb] at h
      exact List.mem_cons_of_mem _ (mem_collapse (b :: rest) c h)
    · rw [collapseSlashes, if_neg hb] at h
      rcases List.mem_cons.mp h with h1 | h2
      · exact h1 ▸ List.mem_cons_self _ _
      · exact List.mem_cons_of_mem _ (mem_collapse (b :: rest) c h2)

theorem noAdjSlash_collapse : ∀ l : List Char, noAdjSlash (collapseSlashes l) = true
  | [] => rfl
  | [_] => rfl
  | a :: b :: rest => by
    by_cases hb : a = '/' ∧ b = '/'
    · rw [collapseSlashes, if_pos hb]
      exact noAdjSlash_collapse (b :: rest)
    · rw [collapseSlashes, if_neg hb]
      obtain ⟨r, hr⟩ := collapse_cons rest b
      have h2 : noAdjSlash (b :: r) = true := by
        rw [← hr]; exact noAdjSlash_collapse (b :: rest)
      rw [hr, noAdjSlash, h2]
      simp only [Bool.and_true, Bool.not_eq_true']
      simpa using hb

theorem collapse_of_noAdj : ∀ l : List Char, noAdjSlash l = true → collapseSlashes l = l
  | [], _ => rfl
  | [_], _ => rfl
  | a :: b :: rest, h => by
    rw [noAdjSlash] at h
    simp only [Bool.and_eq_true, Bool.not_eq_true'] at h
    have hb : ¬(a = '/' ∧ b = '/') := by
      intro hc
      rw [hc.1, hc.2] at h
      simp at h
    rw [collapseSlashes, if_neg hb, collapse_of_noAdj (b :: rest) h.2]

theorem collapse_idem (l : List Char) :
    collapseSlashes (collapseSlashes l) = collapseSlashes l :=
  collapse_of_noAdj _ (noAdjSlash_collapse l)

/-! ## Claim C10: internal/external link views -/

/-- Claim C10: a pair (page, links) is an entry of getInternalLinks
(resp. getExternalLinks) exactly when the page has an entry in the Link Map
whose isInternal (resp. non-isInternal) sublist is non-empty and equals the
pair's links; in particular a page whose filtered list is empty is absent
rather than mapped to an empty list. -/
theorem internal_external_views (lm : List (String × List LinkData))
    (u : String) (ls : List LinkData) :
    ((u, ls) ∈ getInternalLinks lm ↔
      ∃ ls0, (u, ls0) ∈ lm ∧ ls = ls0.filter (fun l => l.isInternal) ∧ ls ≠ []) ∧
    ((u, ls) ∈ getExternalLinks lm ↔
      ∃ ls0, (u, ls0) ∈ lm ∧ ls = ls0.filter (fun l => !l.isInternal) ∧ ls ≠ []) ∧
    ((u, ([] : List LinkData)) ∉ getInternalLinks lm) ∧
    ((u, ([] : List LinkData)) ∉ getExternalLinks lm) := by
  have hint : ∀ ls1 : List LinkData, (u, ls1) ∈ getInternalLinks lm ↔
      ∃ ls0, (u, ls0) ∈ lm ∧ ls1 = ls0.filter (fun l => l.isInternal) ∧ ls1 ≠ [] := by
    intro ls1
    rw [getInternalLinks, List.mem_filterMap]
    constructor
    · rintro ⟨⟨a1, a2⟩, hmem, hf⟩
      simp only at hf
      by_cases he : (a2.filter (fun l => l.isInternal)).isEmpty
      · rw [if_pos he] at hf; cases hf
      · rw [if_neg he] at hf
        injection hf with hf
        injection hf with h1 h2
        subst h1
        refine ⟨a2, hmem, h2.symm, ?_⟩
        rw [← h2]
        simpa [List.isEmpty_iff] using he
    · rintro ⟨ls0, hmem, hfil, hne⟩
      refine ⟨(u, ls0), hmem, ?_⟩
      simp only
      rw [if_neg (by simpa [List.isEmpty_iff, ← hfil] using hne), ← hfil]
  have hext : ∀ ls1 : List LinkData, (u, ls1) ∈ getExternalLinks lm ↔
      ∃ ls0, (u, ls0) ∈ lm ∧ ls1 = ls0.filter (fun l => !l.isInternal) ∧ ls1 ≠ [] := by
    intro ls1
    rw [getExternalLinks, List.mem_filterMap]
    constructor
    · rintro ⟨⟨a1, a2⟩, hmem, hf⟩
      simp only at hf
      by_cases he : (a2.filter (fun l => !l.isInternal)).isEmpty
      · rw [if_pos he] at hf; cases hf
      · rw [if_neg he] at hf
        injection hf with hf
        injection hf with h1 h2
        subst h1
        refine ⟨a2, hmem, h2.symm, ?_⟩
        rw [← h2]
        simpa [List.isEmpty_iff] using he
    · rintro ⟨ls0, hmem, hfil, hne⟩
      refine ⟨(u, ls0), hmem, ?_⟩
      simp only
      rw [if_neg (by simpa [List.isEmpty_iff, ← hfil] using hne), ← hfil]
  refine ⟨hint ls, hext ls, ?_, ?_⟩
  · intro h
    obtain ⟨_, _, _, hne⟩ := (hint []).mp h
    exact hne rfl
  · intro h
    obtain ⟨_, _, _, hne⟩ := (hext []).mp h
    exact hne rfl

end SpiderCrawlModel

namespace SpiderCrawlModel

/-! ## Lemmas: splitting functions of the URL model -/

theorem splitAtChar_not_mem_fst (sep : Char) :
    ∀ l : List Char, sep ∉ (splitAtChar sep l).1
  | [] => by simp [splitAtChar]
  | c :: rest => by
    by_cases hc : c = sep
    · simp [splitAtChar, hc]
    · simp only [splitAtChar, if_neg hc, List.mem_cons]
      rintro (h1 | h2)
      · exact hc h1.symm
      · exact splitAtChar_not_mem_fst sep rest h2

theorem splitAtChar_recombine (sep : Char) :
    ∀ l : List Char,
      l = (splitAtChar sep l).1 ++
        (match (splitAtChar sep l).2 with | none => [] | some a => sep :: a)
  | [] => by simp [splitAtChar]
  | c :: rest => by
    by_cases hc : c = sep
    · simp [splitAtChar, hc]
    · simp only [splitAtChar, if_neg hc, List.cons_append]
      exact congrArg (c :: ·) (splitAtChar_recombine sep rest)

theorem splitAtChar_of_not_mem (sep : Char) :
    ∀ l : List Char, sep ∉ l → splitAtChar sep l = (l, none)
  | [], _ => by simp [splitAtChar]
  | c :: rest, h => by
    have hc : ¬(c = sep) := fun he => h (he ▸ List.mem_cons_self c rest)
    have hr : sep ∉ rest := fun hm => h (List.mem_cons_of_mem c hm)
    simp [splitAtChar, hc, splitAtChar_of_not_mem sep rest hr]

theorem splitAtChar_append_sep (sep : Char) :
    ∀ (b a : List Char), sep ∉ b → splitAtChar sep (b ++ sep :: a) = (b, some a)
  | [], a, _ => by simp [splitAtChar]
  | c :: b2, a, h => by
    have hc : ¬(c = sep) := fun he => h (he ▸ List.mem_cons_self c b2)
    have hb : sep ∉ b2 := fun hm => h (List.mem_cons_of_mem c hm)
    simp [splitAtChar, hc, splitAtChar_append_sep sep b2 a hb]

theorem expectSlashes_sound :
    ∀ (l r : List Char), expectSlashes l = some r → l = '/' :: '/' :: r
  | [], r, h => by simp [expectSlashes] at h
  | [_], r, h => by simp [expectSlashes] at h
  | d1 :: d2 :: t, r, h => by
    rw [expectSlashes] at h
    by_cases hd : d1 = '/' ∧ d2 = '/'
    · rw [if_pos hd] at h
      injection h with h
      rw [hd.1, hd.2, h]
    · rw [if_neg hd] at h; cases h

theorem splitScheme_sound :
    ∀ (l s r : List Char), splitScheme l = some (s, r) →
      (∀ c ∈ s, c.isAlpha = true) ∧ l = s ++ ':' :: '/' :: '/' :: r
  | [], s, r, h => by simp [splitScheme] at h
  | c :: rest, s, r, h => by
    rw [splitScheme] at h
    by_cases ha : c.isAlpha
    · rw [if_pos ha] at h
      cases hrec : splitScheme rest with
      | none => rw [hrec] at h; cases h
      | some p =>
        rw [hrec] at h
        obtain ⟨s0, r0⟩ := p
        simp only [Option.some.injEq, Prod.mk.injEq] at h
        obtain ⟨h1, h2⟩ := h
        subst h1; subst h2
        obtain ⟨ih1, ih2⟩ := splitScheme_sound rest s0 r0 hrec
        refine ⟨?_, by rw [List.cons_append, ← ih2]⟩
        intro x hx
        rcases List.mem_cons.mp hx with h1 | h2
        · exact h1 ▸ ha
        · exact ih1 x h2
    · rw [if_neg ha] at h
      by_cases hc : c = ':'
      · rw [if_pos hc] at h
        cases hes : expectSlashes rest with
        | none => rw [hes] at h; cases h
        | some r0 =>
          rw [hes] at h
          simp only [Option.some.injEq, Prod.mk.injEq] at h
          obtain ⟨h1, h2⟩ := h
          subst h1; subst h2
          refine ⟨(by intro x hx; cases hx), ?_⟩
          rw [List.nil_append, hc, expectSlashes_sound rest _ hes]
      · rw [if_neg hc] at h; cases h

theorem splitScheme_append :
    ∀ (s r : List Char), (∀ c ∈ s, c.isAlpha = true) →
      splitScheme (s ++ ':' :: '/' :: '/' :: r) = some (s, r)
  | [], r, _ => by
    have he : expectSlashes ('/' :: '/' :: r) = some r := by
      simp [expectSlashes]
    rw [List.nil_append, splitScheme,
      if_neg (by decide : ¬(':' : Char).isAlpha = true), if_pos rfl, he]
  | c :: s2, r, h => by
    have hc : c.isAlpha = true := h c (List.mem_cons_self c s2)
    rw [List.cons_append, splitScheme, if_pos hc,
      splitScheme_append s2 r (fun x hx => h x (List.mem_cons_of_mem c hx))]

theorem mem_of_takeWhile (p : Char → Bool) :
    ∀ (l : List Char) (c : Char), c ∈ l.takeWhile p → c ∈ l
  | [], _, h => by simp [List.takeWhile] at h
  | a :: rest, c, h => by
    rw [List.takeWhile] at h
    by_cases hp : p a
    · rw [hp] at h
      simp only [List.mem_cons] at h ⊢
      rcases h with h1 | h2
      · exact Or.inl h1
      · exact Or.inr (mem_of_takeWhile p rest c h2)
    · simp only [Bool.not_eq_true] at hp
      rw [hp] at h
      cases h

theorem takeWhile_pred (p : Char → Bool) :
    ∀ (l : List Char) (c : Char), c ∈ l.takeWhile p → p c = true
  | [], _, h => by simp [List.takeWhile] at h
  | a :: rest, c, h => by
    rw [List.takeWhile] at h
    by_cases hp : p a
    · rw [hp] at h
      rcases List.mem_cons.mp h with h1 | h2
      · exact h1 ▸ hp
      · exact takeWhile_pred p rest c h2
    · simp only [Bool.not_eq_true] at hp
      rw [hp] at h
      cases h

theorem mem_of_dropWhile (p : Char → Bool) :
    ∀ (l : List Char) (c : Char), c ∈ l.dropWhile p → c ∈ l
  | [], _, h => by simp [List.dropWhile] at h
  | a :: rest, c, h => by
    rw [List.dropWhile] at h
    by_cases hp : p a
    · rw [hp] at h
      exact List.mem_cons_of_mem a (mem_of_dropWhile p rest c h)
    · simp only [Bool.not_eq_true] at hp
      rw [hp] at h
      exact h

theorem dropWhile_head_false (p : Char → Bool) :
    ∀ (l : List Char) (c : Char) (t : List Char), l.dropWhile p = c :: t → p c = false
  | [], c, t, h => by simp [List.dropWhile] at h
  | a :: rest, c, t, h => by
    rw [List.dropWhile] at h
    by_cases hp : p a
    · rw [hp] at h
      exact dropWhile_head_false p rest c t h
    · simp only [Bool.not_eq_true] at hp
      rw [hp] at h
      injection h with h1 _
      exact h1 ▸ hp

theorem takeWhile_append_of_pred (p : Char → Bool) :
    ∀ (h t : List Char) (x : Char), (∀ c ∈ h, p c = true) → p x = false →
      (h ++ x :: t).takeWhile p = h ∧ (h ++ x :: t).dropWhile p = x :: t
  | [], t, x, _, hx => by simp [List.takeWhile, List.dropWhile, hx]
  | c :: h2, t, x, hall, hx => by
    have hc : p c = true := hall c (List.mem_cons_self c h2)
    obtain ⟨ih1, ih2⟩ :=
      takeWhile_append_of_pred p h2 t x (fun y hy => hall y (List.mem_cons_of_mem c hy)) hx
    constructor
    · rw [List.cons_append, List.takeWhile, hc, ih1]
    · rw [List.cons_append, List.dropWhile, hc, ih2]

end SpiderCrawlModel

namespace SpiderCrawlModel

/-! ## Lemmas: parser soundness and round trip -/

theorem isAlpha_ne (c : Char) (h : c.isAlpha = true) :
    c ≠ ':' ∧ c ≠ '/' ∧ c ≠ '?' ∧ c ≠ '#' := by
  refine ⟨?_, ?_, ?_, ?_⟩ <;> intro he <;> rw [he] at h <;> exact absurd h (by decide)

theorem urlinv_build (ph1 pq1 : List Char) (pq2 ph2 : Option (List Char))
    (sch hp : List Char)
    (hnh : '#' ∉ ph1) (hnq : '?' ∉ pq1)
    (hrec : ph1 = pq1 ++ (match pq2 with | none => [] | some a => '?' :: a))
    (halpha : ∀ c ∈ sch, c.isAlpha = true)
    (hsplit : pq1 = sch ++ ':' :: '/' :: '/' :: hp)
    (hs : sch ≠ []) (hh : hp.takeWhile (fun c => c ≠ '/') ≠ []) :
    UrlInv ⟨sch, hp.takeWhile (fun c => c ≠ '/'),
      (if hp.dropWhile (fun c => c ≠ '/') = [] then ['/']
       else hp.dropWhile (fun c => c ≠ '/')), pq2, ph2⟩ := by
  have hmem_pq1 : ∀ c ∈ hp, c ∈ pq1 := by
    intro c hc
    rw [hsplit]
    exact List.mem_append_right _ (by simp [hc])
  have hmem_ph1 : ∀ c ∈ pq1, c ∈ ph1 := by
    intro c hc
    rw [hrec]
    exact List.mem_append_left _ hc
  have hp_no : ∀ c ∈ hp, c ≠ '?' ∧ c ≠ '#' := by
    intro c hc
    have h1 : c ∈ pq1 := hmem_pq1 c hc
    exact ⟨fun he => hnq (he ▸ h1), fun he => hnh (he ▸ hmem_ph1 c h1)⟩
  refine ⟨hs, halpha, hh, ?_, ?_, ?_, ?_⟩
  · intro c hc
    have hpr : (fun x => decide (x ≠ '/')) c = true := takeWhile_pred _ hp c hc
    have hm : c ∈ hp := mem_of_takeWhile _ hp c hc
    exact ⟨of_decide_eq_true hpr, (hp_no c hm).1, (hp_no c hm).2⟩
  · by_cases hd : hp.dropWhile (fun c => c ≠ '/') = []
    · rw [if_pos hd]; exact ⟨[], rfl⟩
    · rw [if_neg hd]
      cases hdw : hp.dropWhile (fun c => decide (c ≠ '/')) with
      | nil => exact absurd hdw hd
      | cons c t =>
        have hc : (fun x => decide (x ≠ '/')) c = false :=
          dropWhile_head_false _ hp c t hdw
        have hceq : c = '/' := by simpa using hc
        exact ⟨t, by simp [hceq]⟩
  · intro c hc
    by_cases hd : hp.dropWhile (fun c => c ≠ '/') = []
    · rw [if_pos hd] at hc
      rcases List.mem_singleton.mp hc with h1
      rw [h1]
      exact ⟨by decide, by decide⟩
    · rw [if_neg hd] at hc
      exact hp_no c (mem_of_dropWhile _ hp c hc)
  · intro q hq c hc
    intro he
    apply hnh
    have hq2 : pq2 = some q := hq
    rw [hrec, hq2]
    exact List.mem_append_right _ (List.mem_cons_of_mem _ (he ▸ hc))

theorem parseChars_sound (l : List Char) (u : UrlObj) (h : parseChars l = some u) :
    UrlInv u := by
  simp only [parseChars] at h
  split at h
  · cases h
  · rename_i sp hsch
    by_cases hs : sp.1 = []
    · rw [if_pos hs] at h; cases h
    · rw [if_neg hs] at h
      by_cases hh : sp.2.takeWhile (fun c => c ≠ '/') = []
      · rw [if_pos hh] at h; cases h
      · rw [if_neg hh] at h
        injection h with h
        subst h
        have hsound := splitScheme_sound _ sp.1 sp.2 hsch
        exact urlinv_build (splitAtChar '#' l).1 (splitAtChar '?' (splitAtChar '#' l).1).1
          (splitAtChar '?' (splitAtChar '#' l).1).2 (splitAtChar '#' l).2 sp.1 sp.2
          (splitAtChar_not_mem_fst '#' l) (splitAtChar_not_mem_fst '?' _)
          (splitAtChar_recombine '?' _) hsound.1 hsound.2 hs hh

end SpiderCrawlModel

namespace SpiderCrawlModel

theorem parse_serialize (u : UrlObj) (hu : UrlInv u) (hf : u.frag = none) :
    parseChars (serializeUrl u) = some u := by
  obtain ⟨sch, host, path, search, frag⟩ := u
  simp only [UrlInv] at hu
  obtain ⟨hs, halpha, hh, hhost, ⟨pt, hpath⟩, hpmem, hq⟩ := hu
  have hf2 : frag = none := hf
  subst hf2
  have hpath2 : path = '/' :: pt := hpath
  subst hpath2
  have hA : ∀ c, c ∈ sch ++ ':' :: '/' :: '/' :: (host ++ '/' :: pt) →
      c ≠ '#' ∧ c ≠ '?' := by
    intro c hc
    rcases List.mem_append.mp hc with h1 | h2
    · have ha := halpha c h1
      exact ⟨(isAlpha_ne c ha).2.2.2, (isAlpha_ne c ha).2.2.1⟩
    · rcases List.mem_cons.mp h2 with h3 | h4
      · subst h3; exact ⟨by decide, by decide⟩
      rcases List.mem_cons.mp h4 with h5 | h6
      · subst h5; exact ⟨by decide, by decide⟩
      rcases List.mem_cons.mp h6 with h7 | h8
      · subst h7; exact ⟨by decide, by decide⟩
      rcases List.mem_append.mp h8 with h9 | h10
      · exact ⟨(hhost c h9).2.2, (hhost c h9).2.1⟩
      · exact ⟨(hpmem c h10).2, (hpmem c h10).1⟩
  cases search with
  | none =>
    have hSe : serializeUrl ⟨sch, host, '/' :: pt, none, none⟩ =
        sch ++ ':' :: '/' :: '/' :: (host ++ '/' :: pt) := by
      simp [serializeUrl]
    have hnh : '#' ∉ sch ++ ':' :: '/' :: '/' :: (host ++ '/' :: pt) :=
      fun hm => (hA '#' hm).1 rfl
    have hnq : '?' ∉ sch ++ ':' :: '/' :: '/' :: (host ++ '/' :: pt) :=
      fun hm => (hA '?' hm).2 rfl
    have h1 := splitAtChar_of_not_mem '#' _ hnh
    have h2 := splitAtChar_of_not_mem '?' _ hnq
    have h3 : splitScheme (sch ++ ':' :: '/' :: '/' :: (host ++ '/' :: pt)) =
        some (sch, host ++ '/' :: pt) := splitScheme_append sch _ halpha
    have h4 := takeWhile_append_of_pred (fun c => decide (c ≠ '/')) host pt '/'
        (fun c hc => decide_eq_true (hhost c hc).1) (by decide)
    rw [hSe]
    simp only [parseChars, h1, h2, h3, h4.1, h4.2]
    rw [if_neg hs, if_neg hh, if_neg (List.cons_ne_nil '/' pt)]
  | some q =>
    have hq2 : ∀ c ∈ q, c ≠ '#' := hq q rfl
    have hSe : serializeUrl ⟨sch, host, '/' :: pt, some q, none⟩ =
        (sch ++ ':' :: '/' :: '/' :: (host ++ '/' :: pt)) ++ '?' :: q := by
      simp [serializeUrl]
    have hnqA : '?' ∉ sch ++ ':' :: '/' :: '/' :: (host ++ '/' :: pt) :=
      fun hm => (hA '?' hm).2 rfl
    have hnh : '#' ∉ (sch ++ ':' :: '/' :: '/' :: (host ++ '/' :: pt)) ++ '?' :: q := by
      intro hm
      rcases List.mem_append.mp hm with h1 | h2
      · exact (hA '#' h1).1 rfl
      · rcases List.mem_cons.mp h2 with h3 | h4
        · cases h3
        · exact hq2 '#' h4 rfl
    have h1 := splitAtChar_of_not_mem '#' _ hnh
    have h2 := splitAtChar_append_sep '?' _ q hnqA
    have h3 : splitScheme (sch ++ ':' :: '/' :: '/' :: (host ++ '/' :: pt)) =
        some (sch, host ++ '/' :: pt) := splitScheme_append sch _ halpha
    have h4 := takeWhile_append_of_pred (fun c => decide (c ≠ '/')) host pt '/'
        (fun c hc => decide_eq_true (hhost c hc).1) (by decide)
    rw [hSe]
    simp only [parseChars, h1, h2, h3, h4.1, h4.2]
    rw [if_neg hs, if_neg hh, if_neg (List.cons_ne_nil '/' pt)]

theorem urlinv_normalize (u : UrlObj) (hu : UrlInv u) :
    UrlInv { u with frag := none, path := collapseSlashes u.path } := by
  obtain ⟨hs, halpha, hh, hhost, ⟨pt, hpath⟩, hpmem, hq⟩ := hu
  refine ⟨hs, halpha, hh, hhost, ?_, ?_, hq⟩
  · obtain ⟨r, hr⟩ := collapse_cons pt '/'
    exact ⟨r, by simp only [hpath] at *; exact hr⟩
  · intro c hc
    exact hpmem c (mem_collapse _ c hc)

theorem normalizeChars_idem (l : List Char) :
    normalizeChars (normalizeChars l) = normalizeChars l := by
  cases hp : parseChars l with
  | none =>
    have h1 : normalizeChars l = l := by rw [normalizeChars, hp]
    rw [h1, normalizeChars, hp]
  | some u =>
    have hinv := parseChars_sound l u hp
    have hinv2 := urlinv_normalize u hinv
    have h1 : normalizeChars l =
        serializeUrl { u with frag := none, path := collapseSlashes u.path } := by
      rw [normalizeChars, hp]
    have h2 : parseChars (serializeUrl { u with frag := none, path := collapseSlashes u.path }) =
        some { u with frag := none, path := collapseSlashes u.path } :=
      parse_serialize _ hinv2 rfl
    rw [h1, normalizeChars, h2]
    simp [collapse_idem]

/-! ## Claim C8: idempotence of normalizeUrl -/

/-- Claim C8: normalizing a URL twice yields the same string as normalizing
it once, for every input string. -/
theorem normalizeUrl_idempotent (s : String) :
    normalizeUrl (normalizeUrl s) = normalizeUrl s :=
  congrArg String.mk (normalizeChars_idem s.data)

end SpiderCrawlModel

namespace SpiderCrawlModel

/-! ## Claim C7: behavior of normalizeUrl -/

/-- Claim C7: normalizeUrl parses its input (a failed parse returns the
input unchanged, and the function is total, so it never throws); on a
successful parse it serializes the parsed URL with the fragment dropped and
the repeated path separators collapsed, so the result re-parses to a URL
with no fragment, the same scheme, host and query, and a path with no
repeated separators. -/
theorem normalizeUrl_spec (s : String) :
    (parseUrl s = none → normalizeUrl s = s) ∧
    (∀ u, parseUrl s = some u →
      normalizeUrl s =
        ⟨serializeUrl { u with frag := none, path := collapseSlashes u.path }⟩ ∧
      ∃ u2, parseUrl (normalizeUrl s) = some u2 ∧ u2.frag = none ∧
        u2.scheme = u.scheme ∧ u2.host = u.host ∧ u2.search = u.search ∧
        u2.path = collapseSlashes u.path ∧ noAdjSlash u2.path = true) := by
  constructor
  · intro hp
    have hp2 : parseChars s.data = none := hp
    have h1 : normalizeChars s.data = s.data := by rw [normalizeChars, hp2]
    exact congrArg String.mk h1
  · intro u hp
    have hp2 : parseChars s.data = some u := hp
    have h1 : normalizeChars s.data =
        serializeUrl { u with frag := none, path := collapseSlashes u.path } := by
      rw [normalizeChars, hp2]
    refine ⟨congrArg String.mk h1, ?_⟩
    have hinv2 := urlinv_normalize u (parseChars_sound _ u hp2)
    have h2 := parse_serialize _ hinv2 rfl
    refine ⟨{ u with frag := none, path := collapseSlashes u.path },
      ?_, rfl, rfl, rfl, rfl, rfl, ?_⟩
    · have hgoal : parseChars (normalizeChars s.data) =
          some { u with frag := none, path := collapseSlashes u.path } := by
        rw [h1]; exact h2
      exact hgoal
    · exact noAdjSlash_collapse u.path

/-- Witness for C7 at the concrete inputs: a string that fails to parse is
returned unchanged; a parsable URL normalizes to a fragment-free URL with
the collapsed path. -/
theorem normalizeUrl_spec_witness :
    normalizeUrl "nota url" = "nota url" ∧
    (∃ u2, parseUrl (normalizeUrl "http://a.com//x") = some u2 ∧ u2.frag = none ∧
      u2.scheme = "http".data ∧ u2.host = "a.com".data ∧ u2.search = none ∧
      u2.path = collapseSlashes "//x".data ∧ noAdjSlash u2.path = true) := by
  constructor
  · exact (normalizeUrl_spec "nota url").1 (by decide)
  · exact ((normalizeUrl_spec "http://a.com//x").2
      ⟨"http".data, "a.com".data, "//x".data, none, none⟩ (by decide)).2

/-! ## Claim C5: frontier admission -/

theorem shouldProcessUrl_eq_true (visited : List String) (baseObj : UrlObj)
    (o : SpiderCrawlOptions) (url : String) :
    shouldProcessUrl visited baseObj o url = true ↔
      (url ∉ visited ∧ ∃ obj, parseUrl url = some obj ∧
        (o.sameDomain = false ∨ obj.host = baseObj.host) ∧
        (∀ p ∈ o.excludePatterns, strIncludes url p = false) ∧
        (o.includePatterns = [] ∨ ∃ p ∈ o.includePatterns, strIncludes url p = true)) := by
  rw [shouldProcessUrl]
  by_cases hv : url ∈ visited
  · simp [hv]
  · rw [if_neg hv]
    cases hp : parseUrl url with
    | none => simp [hv, hp]
    | some obj =>
      simp only [hp, Option.some.injEq]
      constructor
      · intro h
        refine ⟨hv, obj, rfl, ?_, ?_, ?_⟩
        · by_cases hd : (o.sameDomain && decide (obj.host ≠ baseObj.host)) = true
          · rw [if_pos hd] at h; cases h
          · simp only [Bool.and_eq_true, decide_eq_true_eq, not_and, Bool.not_eq_true] at hd
            by_cases hsd : o.sameDomain = true
            · right
              by_contra hne
              exact absurd (hd hsd) (by simp [hne])
            · left; exact Bool.not_eq_true _ ▸ Bool.eq_false_iff.mpr hsd
        · by_cases hd : (o.sameDomain && decide (obj.host ≠ baseObj.host)) = true
          · rw [if_pos hd] at h; cases h
          · rw [if_neg hd] at h
            by_cases he : o.excludePatterns.any (fun p => strIncludes url p) = true
            · rw [if_pos he] at h; cases h
            · intro p hp2
              by_contra hne
              apply he
              rw [List.any_eq_true]
              exact ⟨p, hp2, by simpa using hne⟩
        · by_cases hd : (o.sameDomain && decide (obj.host ≠ baseObj.host)) = true
          · rw [if_pos hd] at h; cases h
          · rw [if_neg hd] at h
            by_cases he : o.excludePatterns.any (fun p => strIncludes url p) = true
            · rw [if_pos he] at h; cases h
            · rw [if_neg he] at h
              by_cases hi : (!o.includePatterns.isEmpty
                  && !o.includePatterns.any (fun p => strIncludes url p)) = true
              · rw [if_pos hi] at h; cases h
              · simp only [Bool.and_eq_true, Bool.not_eq_true'] at hi
                by_cases hie : o.includePatterns.isEmpty = true
                · left; exact List.isEmpty_iff.mp hie
                · right
                  have h2 : o.includePatterns.any (fun p => strIncludes url p) = true := by
                    rcases Bool.eq_false_or_eq_true (o.includePatterns.any
                      (fun p => strIncludes url p)) with hta | hfa
                    · exact hta
                    · exact absurd ⟨by simpa using hie, hfa⟩ hi
                  rw [List.any_eq_true] at h2
                  exact h2
      · rintro ⟨_, obj2, hobj, hdom, hexc, hinc⟩
        subst hobj
        have hd : (o.sameDomain && decide (obj.host ≠ baseObj.host)) = false := by
          rcases hdom with h1 | h2
          · simp [h1]
          · simp [h2]
        have he : o.excludePatterns.any (fun p => strIncludes url p) = false := by
          rw [Bool.eq_false_iff]
          intro hx
          rw [List.any_eq_true] at hx
          obtain ⟨p, hp2, hp3⟩ := hx
          rw [hexc p hp2] at hp3
          cases hp3
        have hi : (!o.includePatterns.isEmpty
            && !o.includePatterns.any (fun p => strIncludes url p)) = false := by
          rcases hinc with h1 | ⟨p, hp2, hp3⟩
          · simp [h1]
          · have : o.includePatterns.any (fun p => strIncludes url p) = true :=
              List.any_eq_true.mpr ⟨p, hp2, hp3⟩
            simp [this]
        rw [if_neg (by rw [hd]; exact Bool.false_ne_true),
          if_neg (by rw [he]; exact Bool.false_ne_true),
          if_neg (by rw [hi]; exact Bool.false_ne_true)]

/-- Claim C5: a URL is admitted to the next frontier from a page's link list
if and only if it is the normalized form of one of the discovered links and
it is not already visited and it parses as a URL and (the sameDomain
restriction is off or its hostname equals the start hostname) and it
contains no exclude-pattern substring and (the include-pattern list is empty
or it contains at least one include-pattern substring); in particular a
candidate that fails to parse is never admitted. -/
theorem frontier_admission (visited : List String) (baseObj : UrlObj)
    (o : SpiderCrawlOptions) (links : List LinkData) (u : String) :
    u ∈ admitLinks visited baseObj o links ↔
      ((∃ l ∈ links, normalizeUrl l.url = u) ∧ u ∉ visited ∧
       ∃ obj, parseUrl u = some obj ∧
         (o.sameDomain = false ∨ obj.host = baseObj.host) ∧
         (∀ p ∈ o.excludePatterns, strIncludes u p = false) ∧
         (o.includePatterns = [] ∨ ∃ p ∈ o.includePatterns, strIncludes u p = true)) := by
  rw [admitLinks, List.mem_filter, List.mem_map,
    shouldProcessUrl_eq_true visited baseObj o u]

end SpiderCrawlModel

namespace SpiderCrawlModel

/-! ## Lemmas: gate phase -/

theorem gatePhase_visited_eq (m : Nat) :
    ∀ (batch visited : List String),
      (gatePhase m batch visited).1 = visited ++ (gatePhase m batch visited).2
  | [], visited => by simp [gatePhase]
  | u :: rest, visited => by
    by_cases hc : u ∈ visited ∨ m ≤ visited.length
    · simp only [gatePhase, if_pos hc]
      exact gatePhase_visited_eq m rest visited
    · simp only [gatePhase, if_neg hc]
      rw [gatePhase_visited_eq m rest (visited ++ [u]), List.append_assoc,
        List.singleton_append]

theorem gatePhase_admitted_fresh (m : Nat) :
    ∀ (batch visited : List String) (u : String),
      u ∈ (gatePhase m batch visited).2 → u ∉ visited
  | [], visited, u, h => by simp [gatePhase] at h
  | u0 :: rest, visited, u, h => by
    by_cases hc : u0 ∈ visited ∨ m ≤ visited.length
    · simp only [gatePhase, if_pos hc] at h
      exact gatePhase_admitted_fresh m rest visited u h
    · simp only [gatePhase, if_neg hc] at h
      rcases List.mem_cons.mp h with h1 | h2
      · subst h1
        exact fun hm => hc (Or.inl hm)
      · have ih := gatePhase_admitted_fresh m rest (visited ++ [u0]) u h2
        exact fun hm => ih (List.mem_append_left _ hm)

theorem gatePhase_nodup (m : Nat) :
    ∀ (batch visited : List String), visited.Nodup → (gatePhase m batch visited).1.Nodup
  | [], visited, h => by simpa [gatePhase] using h
  | u :: rest, visited, h => by
    by_cases hc : u ∈ visited ∨ m ≤ visited.length
    · simp only [gatePhase, if_pos hc]
      exact gatePhase_nodup m rest visited h
    · simp only [gatePhase, if_neg hc]
      apply gatePhase_nodup m rest (visited ++ [u])
      rw [List.nodup_append]
      refine ⟨h, List.nodup_singleton u, ?_⟩
      intro a ha hau
      rcases List.mem_singleton.mp hau with rfl
      exact hc (Or.inl ha)

theorem gatePhase_length_le (m : Nat) :
    ∀ (batch visited : List String), visited.length ≤ m →
      (gatePhase m batch visited).1.length ≤ m
  | [], visited, h => by simpa [gatePhase] using h
  | u :: rest, visited, h => by
    by_cases hc : u ∈ visited ∨ m ≤ visited.length
    · simp only [gatePhase, if_pos hc]
      exact gatePhase_length_le m rest visited h
    · simp only [gatePhase, if_neg hc]
      apply gatePhase_length_le m rest (visited ++ [u])
      have hlt : visited.length < m := by
        rcases Nat.lt_or_ge visited.length m with h1 | h2
        · exact h1
        · exact absurd (Or.inr h2) hc
      simpa using hlt

/-! ## Lemmas: fetch phase -/

theorem fetchPhase_failure_skip (fetch : String → Option (List LinkData))
    (baseObj : UrlObj) (o : SpiderCrawlOptions) (visited : List String)
    (u : String) (rest : List String)
    (acc : List (String × List LinkData) × List String) (hu : fetch u = none) :
    fetchPhase fetch baseObj o visited (u :: rest) acc =
      fetchPhase fetch baseObj o visited rest acc := by
  simp [fetchPhase, hu]

theorem fetchPhase_linkMap (fetch : String → Option (List LinkData))
    (baseObj : UrlObj) (o : SpiderCrawlOptions) (visited : List String) :
    ∀ (batch : List String) (lm : List (String × List LinkData)) (q : List String),
      (fetchPhase fetch baseObj o visited batch (lm, q)).1 =
        lm ++ batch.filterMap (fun u => match fetch u with
          | none => none
          | some links => some (u, links))
  | [], lm, q => by simp [fetchPhase]
  | u :: rest, lm, q => by
    cases hu : fetch u with
    | none =>
      rw [fetchPhase_failure_skip fetch baseObj o visited u rest (lm, q) hu,
        fetchPhase_linkMap fetch baseObj o visited rest lm q,
        List.filterMap_cons]
      simp [hu]
    | some links =>
      simp only [fetchPhase, hu]
      rw [fetchPhase_linkMap fetch baseObj o visited rest (lm ++ [(u, links)]) _,
        List.filterMap_cons]
      simp [hu]

theorem filterMap_fetch_keys (fetch : String → Option (List LinkData)) :
    ∀ batch : List String,
      (batch.filterMap (fun u => match fetch u with
        | none => none
        | some links => some (u, links))).map Prod.fst =
      batch.filter (fun u => (fetch u).isSome)
  | [] => by simp
  | u :: rest => by
    cases hu : fetch u with
    | none => simp [List.filterMap_cons, List.filter_cons, hu,
        filterMap_fetch_keys fetch rest]
    | some links => simp [List.filterMap_cons, List.filter_cons, hu,
        filterMap_fetch_keys fetch rest]

end SpiderCrawlModel

namespace SpiderCrawlModel

/-! ## Lemmas: batch loop -/

theorem runBatch_visited (fetch : String → Option (List LinkData)) (b : UrlObj)
    (o : SpiderCrawlOptions) (batch : List String) (s : CrawlState) :
    (runBatch fetch b o batch s).visited =
      s.visited ++ (gatePhase (effMaxPages o) batch s.visited).2 :=
  gatePhase_visited_eq (effMaxPages o) batch s.visited

theorem runBatch_linkMap (fetch : String → Option (List LinkData)) (b : UrlObj)
    (o : SpiderCrawlOptions) (batch : List String) (s : CrawlState) :
    (runBatch fetch b o batch s).linkMap =
      s.linkMap ++ (gatePhase (effMaxPages o) batch s.visited).2.filterMap
        (fun u => match fetch u with
          | none => none
          | some links => some (u, links)) :=
  fetchPhase_linkMap fetch b o (gatePhase (effMaxPages o) batch s.visited).1
    (gatePhase (effMaxPages o) batch s.visited).2 s.linkMap s.queue

theorem runBatch_inv (fetch : String → Option (List LinkData)) (b : UrlObj)
    (o : SpiderCrawlOptions) (batch : List String) (s : CrawlState)
    (h : CrawlInv (effMaxPages o) s) :
    CrawlInv (effMaxPages o) (runBatch fetch b o batch s) := by
  obtain ⟨h1, h2, h3, h4⟩ := h
  have hadm_fresh : ∀ u ∈ (gatePhase (effMaxPages o) batch s.visited).2,
      u ∉ s.visited :=
    fun u hu => gatePhase_admitted_fresh _ batch s.visited u hu
  have hadm_nodup : (gatePhase (effMaxPages o) batch s.visited).2.Nodup := by
    have hn := gatePhase_nodup (effMaxPages o) batch s.visited h1
    rw [gatePhase_visited_eq] at hn
    exact hn.of_append_right
  refine ⟨?_, ?_, ?_, ?_⟩
  · exact gatePhase_nodup _ batch s.visited h1
  · rw [runBatch_linkMap, List.map_append, filterMap_fetch_keys, List.nodup_append]
    refine ⟨h2, hadm_nodup.filter _, ?_⟩
    intro a ha haf
    exact hadm_fresh a (List.mem_of_mem_filter haf) (h3 a ha)
  · intro k hk
    rw [runBatch_linkMap, List.map_append, filterMap_fetch_keys] at hk
    rw [runBatch_visited]
    rcases List.mem_append.mp hk with hk1 | hk2
    · exact List.mem_append_left _ (h3 k hk1)
    · exact List.mem_append_right _ (List.mem_of_mem_filter hk2)
  · exact gatePhase_length_le _ batch s.visited h4

theorem runBatches_inv (fetch : String → Option (List LinkData)) (b : UrlObj)
    (o : SpiderCrawlOptions) :
    ∀ (d : Nat) (s : CrawlState), CrawlInv (effMaxPages o) s →
      CrawlInv (effMaxPages o) (runBatches fetch b o d s)
  | 0, _, h => h
  | d + 1, s, h => by
    rw [runBatches]
    by_cases hq : s.queue.isEmpty
    · rw [if_pos hq]; exact h
    · rw [if_neg hq]
      exact runBatches_inv fetch b o d _
        (runBatch_inv fetch b o s.queue ⟨s.visited, s.linkMap, []⟩ h)

theorem runBatches_succ_visited (fetch : String → Option (List LinkData))
    (b : UrlObj) (o : SpiderCrawlOptions) :
    ∀ (d : Nat) (s : CrawlState), ∃ t,
      (runBatches fetch b o (d + 1) s).visited =
        (runBatches fetch b o d s).visited ++ t
  | 0, s => by
    by_cases hq : s.queue.isEmpty
    · exact ⟨[], by simp only [runBatches]; rw [if_pos hq]; simp⟩
    · refine ⟨(gatePhase (effMaxPages o) s.queue s.visited).2, ?_⟩
      simp only [runBatches, if_neg hq]
      exact runBatch_visited fetch b o s.queue ⟨s.visited, s.linkMap, []⟩
  | d + 1, s => by
    by_cases hq : s.queue.isEmpty
    · refine ⟨[], ?_⟩
      rw [runBatches, if_pos hq]
      conv_rhs => rw [runBatches, if_pos hq]
      simp
    · obtain ⟨t, ht⟩ := runBatches_succ_visited fetch b o d
        (runBatch fetch b o s.queue ⟨s.visited, s.linkMap, []⟩)
      refine ⟨t, ?_⟩
      rw [runBatches, if_neg hq]
      conv_rhs => rw [runBatches, if_neg hq]
      exact ht

theorem runBatches_keys_no_failed (fetch : String → Option (List LinkData))
    (b : UrlObj) (o : SpiderCrawlOptions) (u : String) (hu : fetch u = none) :
    ∀ (d : Nat) (s : CrawlState), u ∉ s.linkMap.map Prod.fst →
      u ∉ (runBatches fetch b o d s).linkMap.map Prod.fst
  | 0, _, h => h
  | d + 1, s, h => by
    rw [runBatches]
    by_cases hq : s.queue.isEmpty
    · rw [if_pos hq]; exact h
    · rw [if_neg hq]
      apply runBatches_keys_no_failed fetch b o u hu d
      rw [runBatch_linkMap, List.map_append, filterMap_fetch_keys]
      intro hmem
      rcases List.mem_append.mp hmem with h1 | h2
      · exact h h1
      · have hs := List.of_mem_filter h2
        rw [hu] at hs
        cases hs

/-! ## Claim C4: dedup and budget invariant -/

/-- Claim C4: starting from the reset run state seeded with the start URL,
after any number of batches the Visited Set has no duplicate entry (each URL
is inserted at most once, and by the admission lemma below each dispatched
URL already sits in the Visited Set when its fetch begins), no URL occurs
twice as a Link Map key, the Visited Set size never exceeds maxPages, and
running one more batch only appends to the Visited Set (monotone
non-decreasing size across batches). -/
theorem crawl_dedup_budget (fetch : String → Option (List LinkData))
    (baseObj : UrlObj) (o : SpiderCrawlOptions) (start : String) (d : Nat)
    (hm : 0 < o.maxPages) :
    (runBatches fetch baseObj o d ⟨[], [], [start]⟩).visited.Nodup ∧
    ((runBatches fetch baseObj o d ⟨[], [], [start]⟩).linkMap.map Prod.fst).Nodup ∧
    (runBatches fetch baseObj o d ⟨[], [], [start]⟩).visited.length ≤ o.maxPages ∧
    (∃ t, (runBatches fetch baseObj o (d + 1) ⟨[], [], [start]⟩).visited =
      (runBatches fetch baseObj o d ⟨[], [], [start]⟩).visited ++ t) ∧
    (∀ (batch visited : List String) (u : String),
      u ∈ (gatePhase (effMaxPages o) batch visited).2 →
      u ∈ (gatePhase (effMaxPages o) batch visited).1) := by
  have hme : effMaxPages o = o.maxPages := by
    rw [effMaxPages, if_neg (Nat.pos_iff_ne_zero.mp hm)]
  have hinv0 : CrawlInv (effMaxPages o) ⟨[], [], [start]⟩ :=
    ⟨List.nodup_nil, by simp, by simp, by simp⟩
  obtain ⟨h1, h2, h3, h4⟩ := runBatches_inv fetch baseObj o d _ hinv0
  refine ⟨h1, h2, hme ▸ h4, runBatches_succ_visited fetch baseObj o d _, ?_⟩
  intro batch visited u hu
  rw [gatePhase_visited_eq]
  exact List.mem_append_right _ hu

/-- Witness for C4 at a concrete run: renderer returning empty link lists,
base http://a.com&#47;, default options, two batches. -/
theorem crawl_dedup_budget_witness :
    (0 : Nat) < ({} : SpiderCrawlOptions).maxPages ∧
    (runBatches (fun _ => some []) ⟨"http".data, "a.com".data, ['/'], none, none⟩
      {} 2 ⟨[], [], ["http://a.com/"]⟩).visited.Nodup ∧
    (runBatches (fun _ => some []) ⟨"http".data, "a.com".data, ['/'], none, none⟩
      {} 2 ⟨[], [], ["http://a.com/"]⟩).visited.length ≤
        ({} : SpiderCrawlOptions).maxPages := by
  have h := crawl_dedup_budget (fun _ => some [])
    ⟨"http".data, "a.com".data, ['/'], none, none⟩ {} "http://a.com/" 2 (by decide)
  exact ⟨by decide, h.1, h.2.2.1⟩

end SpiderCrawlModel

namespace SpiderCrawlModel

/-! ## Claim C6: failure semantics -/

/-- Claim C6: a structural failure (start URL whose normalized form does not
parse) makes crawl return success false, an error message, an empty Link
Map and zero totals; a single fetch failure is swallowed: the fetch phase
records no entry and continues with the remaining URLs, a URL whose fetch
always fails never becomes a Link Map key in any run, and a batch only
appends to the Visited Set (so the failed URL stays visited). -/
theorem crawl_failure_semantics (fetch : String → Option (List LinkData))
    (url : String) (o : SpiderCrawlOptions) :
    (parseUrl (normalizeUrl url) = none →
      crawl fetch url o =
        ⟨false, [], 0, 0, some "Invalid URL", url⟩) ∧
    (∀ (baseObj : UrlObj) (visited : List String) (u : String) (rest : List String)
        (acc : List (String × List LinkData) × List String), fetch u = none →
      fetchPhase fetch baseObj o visited (u :: rest) acc =
        fetchPhase fetch baseObj o visited rest acc) ∧
    (∀ (baseObj : UrlObj) (start : String) (d : Nat) (u : String), fetch u = none →
      u ∉ (runBatches fetch baseObj o d ⟨[], [], [start]⟩).linkMap.map Prod.fst) ∧
    (∀ (baseObj : UrlObj) (batch : List String) (s : CrawlState),
      ∃ t, (runBatch fetch baseObj o batch s).visited = s.visited ++ t) := by
  refine ⟨?_, ?_, ?_, ?_⟩
  · intro hp
    simp only [crawl, hp]
  · intro b v u rest acc hu
    exact fetchPhase_failure_skip fetch b o v u rest acc hu
  · intro b start d u hu
    exact runBatches_keys_no_failed fetch b o u hu d ⟨[], [], [start]⟩ (by simp)
  · intro b batch s
    exact ⟨_, runBatch_visited fetch b o batch s⟩

/-- Witness for C6 at concrete inputs: an unparsable start URL produces the
failed zero result, and with an always-failing renderer the start URL never
becomes a Link Map key. -/
theorem crawl_failure_semantics_witness :
    crawl (fun _ => none) "not a url" {} =
      ⟨false, [], 0, 0, some "Invalid URL", "not a url"⟩ ∧
    "http://a.com/" ∉ (runBatches (fun _ => none)
      ⟨"http".data, "a.com".data, ['/'], none, none⟩ {} 3
      ⟨[], [], ["http://a.com/"]⟩).linkMap.map Prod.fst := by
  refine ⟨(crawl_failure_semantics (fun _ => none) "not a url" {}).1 (by decide), ?_⟩
  exact (crawl_failure_semantics (fun _ => none) "not a url" {}).2.2.1
    ⟨"http".data, "a.com".data, ['/'], none, none⟩ "http://a.com/" 3 "http://a.com/" rfl

/-! ## Claim C1: totalPages -/

/-- Claim C1 counterexample: with a renderer that fails on every page, the
crawl of the URL http colon slash slash a.com visits the start URL, so
totalPages is 1, while the Link Map has no entry: totalPages does not equal
the number of Link Map entries. -/
theorem crawl_totalPages_counterexample :
    (crawl (fun _ => none) "http://a.com/" {}).totalPages ≠
      (crawl (fun _ => none) "http://a.com/" {}).linkMap.length := by
  decide

theorem length_eq_iff_superset (keys vis : List String)
    (hknd : keys.Nodup) (hvnd : vis.Nodup) (hsub : ∀ k ∈ keys, k ∈ vis) :
    keys.length = vis.length ↔ ∀ u ∈ vis, u ∈ keys := by
  constructor
  · intro heq u hu
    by_contra hnk
    have hsub2 : ∀ k ∈ keys, k ∈ vis.erase u := by
      intro k hk
      have hne : k ≠ u := by
        intro he
        subst he
        exact hnk hk
      exact (List.mem_erase_of_ne hne).mpr (hsub k hk)
    have hle2 := (List.subperm_of_subset hknd (fun a ha => hsub2 a ha)).length_le
    rw [List.length_erase_of_mem hu] at hle2
    have hpos : 0 < vis.length :=
      List.length_pos.mpr (fun he => by subst he; cases hu)
    omega
  · intro hall
    have hle1 := (List.subperm_of_subset hknd (fun a ha => hsub a ha)).length_le
    have hle2 := (List.subperm_of_subset hvnd (fun a ha => hall a ha)).length_le
    omega

/-- Amended C1: on a successful run, totalPages equals the Visited Set size
of the final run state (which also counts URLs whose fetch failed), not the
Link Map entry count; the Link Map entry count is at most totalPages, and it
equals totalPages precisely when every URL of the Visited Set has a Link Map
entry — so the two counts differ exactly when some visited URL's fetch
recorded no entry. -/
theorem crawl_totalPages_eq_visited (fetch : String → Option (List LinkData))
    (url : String) (o : SpiderCrawlOptions) (baseObj : UrlObj)
    (hb : parseUrl (normalizeUrl url) = some baseObj) :
    (crawl fetch url o).totalPages =
      (crawlFinalState fetch baseObj o (normalizeUrl url)).visited.length ∧
    (crawl fetch url o).linkMap.length ≤ (crawl fetch url o).totalPages ∧
    ((crawl fetch url o).linkMap.length = (crawl fetch url o).totalPages ↔
      ∀ u ∈ (crawlFinalState fetch baseObj o (normalizeUrl url)).visited,
        u ∈ (crawlFinalState fetch baseObj o (normalizeUrl url)).linkMap.map
          Prod.fst) := by
  have hc : crawl fetch url o =
      { success := true,
        linkMap := (crawlFinalState fetch baseObj o (normalizeUrl url)).linkMap,
        totalPages := (crawlFinalState fetch baseObj o (normalizeUrl url)).visited.length,
        totalLinks := getTotalLinks (crawlFinalState fetch baseObj o (normalizeUrl url)).linkMap,
        error := none, baseUrl := normalizeUrl url } := by
    simp only [crawl, hb]
  have hinv0 : CrawlInv (effMaxPages o) ⟨[], [], [normalizeUrl url]⟩ :=
    ⟨List.nodup_nil, by simp, by simp, by simp⟩
  obtain ⟨h1, h2, h3, h4⟩ :=
    runBatches_inv fetch baseObj o (effMaxDepth o) ⟨[], [], [normalizeUrl url]⟩ hinv0
  have h1v : (crawlFinalState fetch baseObj o (normalizeUrl url)).visited.Nodup := h1
  have h2k : ((crawlFinalState fetch baseObj o (normalizeUrl url)).linkMap.map
      Prod.fst).Nodup := h2
  have h3s : ∀ k ∈ (crawlFinalState fetch baseObj o (normalizeUrl url)).linkMap.map
      Prod.fst, k ∈ (crawlFinalState fetch baseObj o (normalizeUrl url)).visited := h3
  have hiff := length_eq_iff_superset _ _ h2k h1v h3s
  rw [List.length_map] at hiff
  have hle : ((crawlFinalState fetch baseObj o (normalizeUrl url)).linkMap.map
      Prod.fst).length ≤
      (crawlFinalState fetch baseObj o (normalizeUrl url)).visited.length :=
    (List.subperm_of_subset h2k (fun a ha => h3s a ha)).length_le
  rw [List.length_map] at hle
  rw [hc]
  exact ⟨rfl, hle, hiff⟩

/-- Witness for the amended C1 at a concrete run with the always-succeeding
empty renderer: totalPages counts the visited set, the Link Map count is
bounded by it, and here every visited URL has an entry so the counts agree. -/
theorem crawl_totalPages_eq_visited_witness :
    (crawl (fun _ => some []) "http://a.com/" {}).totalPages =
      (crawlFinalState (fun _ => some [])
        ⟨"http".data, "a.com".data, ['/'], none, none⟩ {} (normalizeUrl "http://a.com/")).visited.length ∧
    (crawl (fun _ => some []) "http://a.com/" {}).linkMap.length ≤
      (crawl (fun _ => some []) "http://a.com/" {}).totalPages ∧
    ((crawl (fun _ => some []) "http://a.com/" {}).linkMap.length =
        (crawl (fun _ => some []) "http://a.com/" {}).totalPages ↔
      ∀ u ∈ (crawlFinalState (fun _ => some [])
        ⟨"http".data, "a.com".data, ['/'], none, none⟩ {} (normalizeUrl "http://a.com/")).visited,
        u ∈ (crawlFinalState (fun _ => some [])
          ⟨"http".data, "a.com".data, ['/'], none, none⟩ {}
          (normalizeUrl "http://a.com/")).linkMap.map Prod.fst) :=
  crawl_totalPages_eq_visited (fun _ => some []) "http://a.com/" {}
    ⟨"http".data, "a.com".data, ['/'], none, none⟩ (by decide)

end SpiderCrawlModel

namespace PoolModel

/-! ## Claim C2: shutdown behavior -/

/-- Claim C2 counterexample: after close() on a running pool holding one
session, a getTab call does not fail with PoolClosed: it relaunches the
browser and answers with a freshly created tab. -/
theorem close_then_getTab_counterexample :
    (getTab 5 "about:blank" (fun _ => true)
      (close ⟨true, [("about:blank", mkTabInfo "about:blank" 0)], 10⟩)).2 =
      TabResult.created "about:blank" ∧
    (getTab 5 "about:blank" (fun _ => true)
      (close ⟨true, [("about:blank", mkTabInfo "about:blank" 0)], 10⟩)).1.browser
      = true := by
  constructor <;> rfl

/-- Amended C2: close() on a running pool destroys all sessions and resets
the browser, but the pool does not refuse later acquisitions: a subsequent
getTab re-launches the renderer engine and succeeds by creating a fresh
session. -/
theorem close_then_getTab (s : PoolState) (now : Nat) (freshId : String)
    (lookup : String → Bool) (hb : s.browser = true) (hm : 0 < s.maxTabs) :
    close s = ⟨false, [], s.maxTabs⟩ ∧
    getTab now freshId lookup (close s) =
      (⟨true, [(freshId, mkTabInfo freshId now)], s.maxTabs⟩,
        TabResult.created freshId) := by
  have hc : close s = ⟨false, [], s.maxTabs⟩ := by
    rw [close, if_pos hb]
  refine ⟨hc, ?_⟩
  rw [hc, getTab]
  simp only [scanIdle, mapSet, List.length_nil]
  rw [if_pos hm]

/-- Witness for the amended C2 at a concrete pool. -/
theorem close_then_getTab_witness :
    close ⟨true, [("a", mkTabInfo "a" 0)], 10⟩ = ⟨false, [], 10⟩ ∧
    getTab 7 "b" (fun _ => false) (close ⟨true, [("a", mkTabInfo "a" 0)], 10⟩) =
      (⟨true, [("b", mkTabInfo "b" 7)], 10⟩, TabResult.created "b") :=
  close_then_getTab ⟨true, [("a", mkTabInfo "a" 0)], 10⟩ 7 "b" (fun _ => false)
    rfl (by decide)

/-! ## Claim C3: release then acquire under saturation -/

theorem scanIdle_release (now1 now2 : Nat) (k : String) (t : TabInfo) :
    ∀ tabs : List (String × TabInfo), (k, t) ∈ tabs →
      (∀ e ∈ tabs, e.2.inUse = true) → (tabs.map Prod.fst).Nodup →
      ∃ l, scanIdle now2 (releaseAt k now1 tabs) =
          some ((k, { t with inUse := true, lastUsed := now2 }), l) ∧
        l.length = tabs.length
  | [], hmem, _, _ => by cases hmem
  | e :: rest, hmem, hall, hnd => by
    by_cases hek : e.1 = k
    · have het : e = (k, t) := by
        rcases List.mem_cons.mp hmem with h1 | h2
        · exact h1.symm
        · exfalso
          rw [List.map_cons, List.nodup_cons] at hnd
          apply hnd.1
          rw [hek]
          exact List.mem_map.mpr ⟨(k, t), h2, rfl⟩
      subst het
      refine ⟨(k, { t with inUse := true, lastUsed := now2 }) :: rest, ?_, rfl⟩
      rw [releaseAt, if_pos hek]
      rw [scanIdle]
      simp
    · have hmem2 : (k, t) ∈ rest := by
        rcases List.mem_cons.mp hmem with h1 | h2
        · exact absurd (by rw [← h1]) hek
        · exact h2
      have hall2 : ∀ x ∈ rest, x.2.inUse = true :=
        fun x hx => hall x (List.mem_cons_of_mem _ hx)
      have hnd2 : (rest.map Prod.fst).Nodup := by
        rw [List.map_cons, List.nodup_cons] at hnd
        exact hnd.2
      obtain ⟨l, hl, hlen⟩ := scanIdle_release now1 now2 k t rest hmem2 hall2 hnd2
      refine ⟨e :: l, ?_, by simp [hlen]⟩
      rw [releaseAt, if_neg hek, scanIdle, if_pos (hall e (List.mem_cons_self e rest)), hl]

/-- Claim C3: with the pool saturated (session count equals capacity and
every session in use), releasing a known session and then acquiring hands an
existing session back (result `reused`, not `created`) and the session
count does not grow; the hypotheses state the release key is a known
session, the registry keys are distinct (as in a JS Map), and the browser
still holds the page recorded for the released session. -/
theorem pool_release_then_acquire (s : PoolState) (k : String) (t : TabInfo)
    (now1 now2 : Nat) (freshId : String) (lookup : String → Bool)
    (hmem : (k, t) ∈ s.tabs) (hall : ∀ e ∈ s.tabs, e.2.inUse = true)
    (_hsat : s.tabs.length = s.maxTabs) (hnd : (s.tabs.map Prod.fst).Nodup)
    (hlook : lookup t.url = true) :
    (getTab now2 freshId lookup (releaseTab k now1 s)).2 = TabResult.reused k ∧
    (getTab now2 freshId lookup (releaseTab k now1 s)).1.tabs.length =
      s.tabs.length := by
  obtain ⟨l, hl, hlen⟩ := scanIdle_release now1 now2 k t s.tabs hmem hall hnd
  have hgt : getTab now2 freshId lookup (releaseTab k now1 s) =
      ({ browser := true, tabs := l, maxTabs := s.maxTabs }, TabResult.reused k) := by
    simp only [getTab, releaseTab]
    rw [hl]
    simp [hlook]
  rw [hgt]
  exact ⟨rfl, hlen⟩

/-- Witness for C3 at a concrete saturated one-session pool. -/
theorem pool_release_then_acquire_witness :
    (getTab 2 "fresh" (fun _ => true)
      (releaseTab "a" 1 ⟨true, [("a", ⟨"a", "a", true, 0, 0⟩)], 1⟩)).2 =
      TabResult.reused "a" ∧
    (getTab 2 "fresh" (fun _ => true)
      (releaseTab "a" 1 ⟨true, [("a", ⟨"a", "a", true, 0, 0⟩)], 1⟩)).1.tabs.length =
      (⟨true, [("a", ⟨"a", "a", true, 0, 0⟩)], 1⟩ : PoolState).tabs.length :=
  pool_release_then_acquire ⟨true, [("a", ⟨"a", "a", true, 0, 0⟩)], 1⟩ "a"
    ⟨"a", "a", true, 0, 0⟩ 1 2 "fresh" (fun _ => true)
    (List.mem_cons_self _ _) (by decide) rfl (by decide) rfl

/-! ## Claim C9: idle cleanup -/

/-- Claim C9: when the browser still holds a page for every stale idle
session, cleanupOldTabs keeps exactly the sessions that are in use or whose
idle age is within the threshold — the stale idle sessions are destroyed and
every kept entry is unchanged, the browser flag included; and with no
hypothesis at all, every session marked inUse survives untouched. -/
theorem cleanupOldTabs_spec (s : PoolState) (now mins : Nat)
    (lookup : String → Bool)
    (hlook : ∀ e ∈ s.tabs, e.2.inUse = false →
      mins * 60 * 1000 < now - e.2.lastUsed → lookup e.1 = true) :
    (cleanupOldTabs now mins lookup s).tabs =
      s.tabs.filter (fun e =>
        e.2.inUse || decide (now - e.2.lastUsed ≤ mins * 60 * 1000)) ∧
    (cleanupOldTabs now mins lookup s).browser = s.browser ∧
    (∀ e ∈ s.tabs, e.2.inUse = true → e ∈ (cleanupOldTabs now mins lookup s).tabs) := by
  have hfil : (cleanupOldTabs now mins lookup s).tabs =
      s.tabs.filter (fun e =>
        !((!e.2.inUse) && decide (mins * 60 * 1000 < now - e.2.lastUsed)
          && lookup e.1)) := rfl
  refine ⟨?_, rfl, ?_⟩
  · rw [hfil]
    apply List.filter_congr
    intro e he
    cases hiu : e.2.inUse with
    | true => simp [hiu]
    | false =>
      by_cases hold : mins * 60 * 1000 < now - e.2.lastUsed
      · have hlk := hlook e he hiu hold
        simp [hiu, hold, hlk, Nat.not_le.mpr hold]
      · simp [hiu, hold, Nat.not_lt.mp hold]
  · intro e he hiu
    rw [hfil]
    exact List.mem_filter.mpr ⟨he, by simp [hiu]⟩

/-- Witness for C9: a pool with an in-use old session, a stale idle session
and a fresh idle session; cleanup removes exactly the stale idle one. -/
theorem cleanupOldTabs_spec_witness :
    (cleanupOldTabs 10000000 1 (fun _ => true)
      ⟨true, [("a", ⟨"a", "a", true, 0, 0⟩), ("b", ⟨"b", "b", false, 0, 0⟩),
        ("c", ⟨"c", "c", false, 0, 9990000⟩)], 10⟩).tabs =
      ([("a", ⟨"a", "a", true, 0, 0⟩), ("b", ⟨"b", "b", false, 0, 0⟩),
        ("c", ⟨"c", "c", false, 0, 9990000⟩)] :
          List (String × TabInfo)).filter (fun e =>
        e.2.inUse || decide (10000000 - e.2.lastUsed ≤ 1 * 60 * 1000)) :=
  (cleanupOldTabs_spec
    ⟨true, [("a", ⟨"a", "a", true, 0, 0⟩), ("b", ⟨"b", "b", false, 0, 0⟩),
      ("c", ⟨"c", "c", false, 0, 9990000⟩)], 10⟩ 10000000 1 (fun _ => true)
    (by decide)).1

end PoolModel
